import Mathlib

/-!
Shallow embedding of the `st-custom-fonts` browser plugin (src/index.js).

The plugin keeps a configuration (two font sequences, an active-font name
and three boolean flags), mutates it through add/remove/apply operations,
mirrors it onto a document (head links, a CSS custom property, two style
elements) and reports through toast notifications.  Machine state is
modelled as explicit records; each operation is a pure function from the
state (plus its inputs) to the new state together with the emitted
notifications and the number of persistence calls it made.
-/

namespace CustomFonts

/-- Kind of a toast notification, mirroring `toastr[type]` in `notify`. -/
inductive NotifKind
  | success
  | error
deriving DecidableEq, Repr

/-- One emitted toast notification. -/
structure Notif where
  message : String
  kind : NotifKind
deriving DecidableEq, Repr

/-- A remote (Google) font entry `{ name, link }`. -/
structure GoogleFont where
  name : String
  link : String
deriving DecidableEq, Repr

/-- A local font entry `{ name, data }` with its embedded data payload. -/
structure LocalFont where
  name : String
  data : String
deriving DecidableEq, Repr

/-- The `fonts` sub-object of the settings: two ordered sequences. -/
structure Fonts where
  google : List GoogleFont
  «local» : List LocalFont
deriving DecidableEq, Repr

/-- The plugin settings object. -/
structure Settings where
  fonts : Fonts
  activeFont : Option String
  autoLoad : Bool
  overrideThemeFont : Bool
  notifications : Bool
deriving DecidableEq, Repr

/-- `defaultSettings` from src/index.js. -/
def defaultSettings : Settings :=
  { fonts := { google := [], «local» := [] }
  , activeFont := none
  , autoLoad := true
  , overrideThemeFont := false
  , notifications := true }

/-- A `<link>` element in the document head. -/
structure HeadLink where
  id : String
  rel : String
  href : String
deriving DecidableEq, Repr

/-- The document surface touched by the plugin: head `<link>` elements,
the `--custom-font-family` CSS custom property on the root element, the
content of the override `<style>` element (when present) and the content
of the local font-face definitions `<style>` element (when present). -/
structure Doc where
  headLinks : List HeadLink
  customFontFamily : Option String
  overrideStyle : Option String
  localDefsStyle : Option String
deriving DecidableEq, Repr

/-- The full machine state: settings plus document. -/
structure St where
  settings : Settings
  doc : Doc
deriving DecidableEq, Repr

/-- Result of one operation: the new state, the emitted notifications and
the number of `saveSettingsDebounced` calls. -/
structure Eff where
  st : St
  notifs : List Notif
  saves : Nat
deriving DecidableEq, Repr

/-- `notify(message, type)`: emits the toast only when notifications are on. -/
def notifyList (s : Settings) (message : String) (kind : NotifKind) : List Notif :=
  if s.notifications then [{ message := message, kind := kind }] else []

/-- The `<link>` element id derived from a font name:
`google-font-` plus the name with every whitespace character replaced by
a dash (`font.name.replace(/\s/g, '-')`). -/
def linkId (name : String) : String :=
  "google-font-" ++ String.map (fun c => if c.isWhitespace then '-' else c) name

/-- The value written to `--custom-font-family`:
the quoted font name with the fallback stack appended. -/
def cssFontStack (fontName : String) : String :=
  "\"" ++ fontName ++ "\", \x27Noto Color Emoji\x27, sans-serif"

/-- The fixed selector list the override rule targets. -/
def overrideSelectors : String :=
  "body, select, .font-family-reset, .swipes-counter, textarea, #send_textarea, .text_pole, button, .menu_button"

/-- The content written into the override `<style>` element. -/
def overrideRule : String :=
  overrideSelectors ++ " \x7b font-family: var(--custom-font-family) !important; \x7d"

/-- `applyFont` body after the `!fontName` guard, for a nonempty name. -/
def applyFontNamed (st : St) (fontName : String) : Eff :=
  let s := st.settings
  let isGoogleFont := s.fonts.google.any (fun f => f.name == fontName)
  let isLocalFont := s.fonts.«local».any (fun f => f.name == fontName)
  if !isGoogleFont && !isLocalFont then
    { st := st
    , notifs := notifyList s ("Font \"" ++ fontName ++ "\" not found.") NotifKind.error
    , saves := 0 }
  else
    let doc1 :=
      if isGoogleFont then
        match s.fonts.google.find? (fun f => f.name == fontName) with
        | some font =>
          if st.doc.headLinks.any (fun l => l.id == linkId font.name) then st.doc
          else { st.doc with headLinks := st.doc.headLinks ++
                   [{ id := linkId font.name, rel := "stylesheet", href := font.link }] }
        | none => st.doc
      else st.doc
    let doc2 := { doc1 with customFontFamily := some (cssFontStack fontName) }
    if !s.overrideThemeFont then
      { st := { st with doc := { doc2 with overrideStyle := none } }
      , notifs := []
      , saves := 0 }
    else
      { st := { settings := { s with activeFont := some fontName }
              , doc := { doc2 with overrideStyle := some overrideRule } }
      , notifs := notifyList s ("Applied font: " ++ fontName) NotifKind.success
      , saves := 1 }

/-- `applyFont(fontName)`.  The argument may be `null`/`undefined` (here
`none`) or a string; `!fontName` is true exactly for `none` and `""`. -/
def applyFont (st : St) (fontName : Option String) : Eff :=
  match fontName with
  | none => { st := st, notifs := [], saves := 0 }
  | some n => if n == "" then { st := st, notifs := [], saves := 0 } else applyFontNamed st n

/-- One generated `@font-face` rule for a local font (template literal in
`injectLocalFontStyles`). -/
def fontFaceRule (font : LocalFont) : String :=
  "\n        @font-face \x7b\n            font-family: \"" ++ font.name ++
    "\";\n            src: url(" ++ font.data ++ ");\n        \x7d\n    "

/-- The full content of the local font-face definitions style element:
one rule per local font, joined with newlines. -/
def localDefsContent (s : Settings) : String :=
  String.intercalate "\n" (s.fonts.«local».map fontFaceRule)

/-- `injectLocalFontStyles()`: fully replaces the content of the local
font-face definitions style element with one rule per local font. -/
def injectLocalFontStyles (st : St) : St :=
  { st with doc := { st.doc with localDefsStyle := some (localDefsContent st.settings) } }

/-- JavaScript `String.prototype.trim`: strips leading and trailing
whitespace (written over the character list so it evaluates). -/
def trimString (s : String) : String :=
  ⟨((s.data.dropWhile Char.isWhitespace).reverse.dropWhile Char.isWhitespace).reverse⟩

/-- `addGoogleFont()`, with the two text-input values as parameters
(the DOM reads and `.trim()` calls are part of the function). -/
def addGoogleFont (st : St) (nameInput linkInput : String) : Eff :=
  let name := trimString nameInput
  let link := trimString linkInput
  let s := st.settings
  if name == "" || link == "" then
    { st := st
    , notifs := notifyList s "Both name and link are required for Google Fonts." NotifKind.error
    , saves := 0 }
  else if s.fonts.google.any (fun f => f.name == name) ||
          s.fonts.«local».any (fun f => f.name == name) then
    { st := st
    , notifs := notifyList s ("A font named \"" ++ name ++ "\" already exists.") NotifKind.error
    , saves := 0 }
  else if !(link.startsWith "https://fonts.googleapis.com/css") then
    { st := st
    , notifs := notifyList s "Please use a valid Google Fonts API link." NotifKind.error
    , saves := 0 }
  else
    { st := { st with settings := { s with fonts :=
        { s.fonts with google := s.fonts.google ++ [{ name := name, link := link }] } } }
    , notifs := notifyList s ("Added Google Font: " ++ name) NotifKind.success
    , saves := 1 }

/-- Outcome of the one-shot asynchronous file read in
`handleLocalFontFile`: `reader.onload` with the data-URL payload, or
`reader.onerror`. -/
inductive FileReadResult
  | success (data : String)
  | failure
deriving DecidableEq, Repr

/-- `handleLocalFontFile(event)`, with the selected file (if any, together
with its eventual read outcome) and the name-input value as parameters. -/
def handleLocalFontFile (st : St) (file : Option FileReadResult) (nameInput : String) : Eff :=
  let name := trimString nameInput
  let s := st.settings
  match file with
  | none => { st := st, notifs := [], saves := 0 }
  | some result =>
    if name == "" then
      { st := st
      , notifs := notifyList s "Please provide a name for the local font first." NotifKind.error
      , saves := 0 }
    else if s.fonts.google.any (fun f => f.name == name) ||
            s.fonts.«local».any (fun f => f.name == name) then
      { st := st
      , notifs := notifyList s ("A font named \"" ++ name ++ "\" already exists.") NotifKind.error
      , saves := 0 }
    else
      match result with
      | FileReadResult.success data =>
        let st1 : St := { st with settings := { s with fonts :=
          { s.fonts with «local» := s.fonts.«local» ++ [{ name := name, data := data }] } } }
        { st := injectLocalFontStyles st1
        , notifs := notifyList s ("Added local font: " ++ name) NotifKind.success
        , saves := 1 }
      | FileReadResult.failure =>
        { st := st
        , notifs := notifyList s "Failed to read font file." NotifKind.error
        , saves := 0 }

/-- `removeFont(fontName)`. -/
def removeFont (st : St) (fontName : String) : Eff :=
  let s := st.settings
  let wasActive := s.activeFont == some fontName
  let initialLength := s.fonts.«local».length
  let local1 := s.fonts.«local».filter (fun f => f.name != fontName)
  let st1 : St := { st with settings := { s with fonts := { s.fonts with «local» := local1 } } }
  let st2 := if local1.length < initialLength then injectLocalFontStyles st1 else st1
  let st3 : St := { st2 with settings := { st2.settings with fonts :=
    { st2.settings.fonts with google := st2.settings.fonts.google.filter (fun f => f.name != fontName) } } }
  let st4 :=
    if wasActive then
      { st3 with
        settings := { st3.settings with activeFont := none }
        doc := { st3.doc with customFontFamily := none, overrideStyle := none } }
    else st3
  { st := st4
  , notifs := notifyList s ("Removed font: " ++ fontName) NotifKind.success
  , saves := 1 }

/-- A persisted `fonts` value: either sequence may be missing. -/
structure PersistedFonts where
  google : Option (List GoogleFont)
  «local» : Option (List LocalFont)
deriving DecidableEq, Repr

/-- A persisted configuration value: any field may be missing
(`none` on the outer `Option`); `activeFont`, when present, may itself be
`null`. -/
structure PersistedSettings where
  fonts : Option PersistedFonts
  activeFont : Option (Option String)
  autoLoad : Option Bool
  overrideThemeFont : Option Bool
  notifications : Option Bool
deriving DecidableEq, Repr

/-- The startup merge
`settings = { ...defaultSettings, ...extension_settings[extensionName] };
settings.fonts = { ...defaultSettings.fonts, ...settings.fonts };`
— persisted values win field-by-field, and the `fonts` sub-object is
merged one level deeper. -/
def mergeSettings (p : PersistedSettings) : Settings :=
  let fonts1 : PersistedFonts :=
    match p.fonts with
    | some f => f
    | none => { google := some defaultSettings.fonts.google
              , «local» := some defaultSettings.fonts.«local» }
  let fonts2 : Fonts :=
    { google := fonts1.google.getD defaultSettings.fonts.google
    , «local» := fonts1.«local».getD defaultSettings.fonts.«local» }
  { fonts := fonts2
  , activeFont := p.activeFont.getD defaultSettings.activeFont
  , autoLoad := p.autoLoad.getD defaultSettings.autoLoad
  , overrideThemeFont := p.overrideThemeFont.getD defaultSettings.overrideThemeFont
  , notifications := p.notifications.getD defaultSettings.notifications }

/-- What persisting the in-memory settings stores: every field present. -/
def persistOf (s : Settings) : PersistedSettings :=
  { fonts := some { google := some s.fonts.google, «local» := some s.fonts.«local» }
  , activeFont := some s.activeFont
  , autoLoad := some s.autoLoad
  , overrideThemeFont := some s.overrideThemeFont
  , notifications := some s.notifications }

/-- The names of all registered fonts, remote sequence first. -/
def fontNames (s : Settings) : List String :=
  s.fonts.google.map GoogleFont.name ++ s.fonts.«local».map LocalFont.name

/-- Whether some font (of either kind) with the given name is registered. -/
def fontPresentB (s : Settings) (n : String) : Bool :=
  s.fonts.google.any (fun f => f.name == n) || s.fonts.«local».any (fun f => f.name == n)

/-- The active font, when set, names a registered font. -/
def activeFontOkB (s : Settings) : Bool :=
  match s.activeFont with
  | none => true
  | some n => fontPresentB s n

/-- The joint invariant: no duplicate names within or across the two
sequences, and `activeFont`, when non-null, names a registered font. -/
def invariant (s : Settings) : Prop :=
  (fontNames s).Nodup ∧ activeFontOkB s = true

instance (s : Settings) : Decidable (invariant s) := by
  unfold invariant; infer_instance

/-- An empty document surface. -/
def emptyDoc : Doc :=
  { headLinks := [], customFontFamily := none, overrideStyle := none, localDefsStyle := none }

/-- A sample state with one remote and one local font, `Inter` active,
theme override off, notifications on. -/
def stW : St :=
  { settings :=
      { fonts :=
          { google := [{ name := "Inter", link := "https://fonts.googleapis.com/css?family=Inter" }]
          , «local» := [{ name := "Foo", data := "data:font/woff;base64,AAAA" }] }
      , activeFont := some "Inter"
      , autoLoad := true
      , overrideThemeFont := false
      , notifications := true }
  , doc := emptyDoc }

/-- The sample state with theme override on. -/
def stOv : St :=
  { stW with settings := { stW.settings with overrideThemeFont := true } }

/-- The sample state with no active font and theme override off. -/
def stNo : St :=
  { stW with settings := { stW.settings with activeFont := none } }

/-- The default (empty) state. -/
def stEmpty : St := { settings := defaultSettings, doc := emptyDoc }

theorem notifyList_kind (s : Settings) (m : String) (k : NotifKind) :
    ∀ ν ∈ notifyList s m k, ν.kind = k := by
  intro ν hν
  unfold notifyList at hν
  split at hν
  · simp only [List.mem_singleton] at hν
    subst hν
    rfl
  · simp at hν

theorem notifyList_ne_nil (s : Settings) (m : String) (k : NotifKind)
    (h : s.notifications = true) : notifyList s m k ≠ [] := by
  simp [notifyList, h]

theorem any_name_eq_false_not_mem {α : Type} (nm : α → String) (l : List α) (n : String)
    (h : (l.any fun f => nm f == n) = false) : n ∉ l.map nm := by
  intro hmem
  rcases List.mem_map.mp hmem with ⟨f, hf, he⟩
  have ht : (l.any fun f => nm f == n) = true :=
    List.any_eq_true.mpr ⟨f, hf, by simp [he]⟩
  rw [h] at ht
  exact Bool.false_ne_true ht

theorem any_name_filter_ne {α : Type} (nm : α → String) (l : List α) (m n : String)
    (hm : m ≠ n) (h : (l.any fun f => nm f == m) = true) :
    ((l.filter fun f => nm f != n).any fun f => nm f == m) = true := by
  rcases List.any_eq_true.mp h with ⟨f, hf, he⟩
  have he' : nm f = m := by simpa using he
  refine List.any_eq_true.mpr ⟨f, List.mem_filter.mpr ⟨hf, ?_⟩, he⟩
  simp [he', hm]

theorem filter_ne_of_any_eq_false {α : Type} (nm : α → String) (l : List α) (n : String)
    (h : (l.any fun f => nm f == n) = false) :
    (l.filter fun f => nm f != n) = l := by
  apply List.filter_eq_self.mpr
  intro a ha
  simp only [List.any_eq_false] at h
  simpa using h a ha

/-- C10: `applyFont` called with a null/undefined or empty font name
returns at the `!fontName` guard: the state is untouched, nothing is
persisted and no notification of any kind is emitted. -/
theorem applyFont_falsy_noop (st : St) :
    applyFont st none = { st := st, notifs := [], saves := 0 } ∧
    applyFont st (some "") = { st := st, notifs := [], saves := 0 } := by
  constructor
  · rfl
  · simp [applyFont]

/-- C4: applying an unknown, non-empty font name yields exactly the
not-found error notification (suppressed when notifications are off),
leaves the whole state (document and configuration) unchanged and
persists nothing. -/
theorem applyFont_unknown_noop (st : St) (name : String) (hn : name ≠ "")
    (hp : fontPresentB st.settings name = false) :
    applyFont st (some name) =
      { st := st
      , notifs := notifyList st.settings ("Font \"" ++ name ++ "\" not found.") NotifKind.error
      , saves := 0 } := by
  have hb : (name == "") = false := by simp [hn]
  have hgl := hp
  unfold fontPresentB at hgl
  rcases Bool.or_eq_false_iff.mp hgl with ⟨hg, hl⟩
  simp [applyFont, applyFontNamed, hb, hg, hl]

/-- Witness for C4 at a concrete state and name. -/
theorem applyFont_unknown_noop_witness :
    applyFont stW (some "Nope") =
      { st := stW
      , notifs := [{ message := "Font \"Nope\" not found.", kind := NotifKind.error }]
      , saves := 0 } :=
  Eq.trans (applyFont_unknown_noop stW "Nope" (by decide) (by decide)) (by decide)

/-- C1 counterexample: at a state whose remote sequence contains `Inter`
but with `overrideThemeFont` disabled (and notifications on), `applyFont`
does not set `activeFont`, performs no persistence call and emits no
success notification: the early `return` in step (c) skips the state
update as well. -/
theorem applyFont_override_off_cx :
    fontPresentB stNo.settings "Inter" = true ∧
    stNo.settings.overrideThemeFont = false ∧
    stNo.settings.notifications = true ∧
    (applyFont stNo (some "Inter")).st.settings.activeFont ≠ some "Inter" ∧
    (applyFont stNo (some "Inter")).saves = 0 ∧
    (applyFont stNo (some "Inter")).notifs = [] := by decide

/-- C1 (amended): for a font name present in either sequence, `applyFont`
sets `activeFont`, persists and emits the success notification exactly
when `overrideThemeFont` is enabled; when it is disabled the function
stops after setting the CSS custom property and removing the override
rule, leaving the settings untouched, persisting nothing and notifying
nothing. -/
theorem applyFont_known_state_update (st : St) (name : String) (hn : name ≠ "")
    (hp : fontPresentB st.settings name = true) :
    (st.settings.overrideThemeFont = true →
      (applyFont st (some name)).st.settings.activeFont = some name ∧
      (applyFont st (some name)).saves = 1 ∧
      (applyFont st (some name)).notifs =
        notifyList st.settings ("Applied font: " ++ name) NotifKind.success) ∧
    (st.settings.overrideThemeFont = false →
      (applyFont st (some name)).st.settings = st.settings ∧
      (applyFont st (some name)).saves = 0 ∧
      (applyFont st (some name)).notifs = [] ∧
      (applyFont st (some name)).st.doc.overrideStyle = none ∧
      (applyFont st (some name)).st.doc.customFontFamily = some (cssFontStack name)) := by
  have hb : (name == "") = false := by simp [hn]
  have hgl := hp
  unfold fontPresentB at hgl
  have hcond : (!(st.settings.fonts.google.any fun f => f.name == name) &&
      !(st.settings.fonts.«local».any fun f => f.name == name)) = false := by
    rw [← Bool.not_or, hgl]
    rfl
  constructor
  · intro hov
    simp [applyFont, applyFontNamed, hb, hcond, hov]
  · intro hov
    simp [applyFont, applyFontNamed, hb, hcond, hov]

/-- Witness for C1's amended theorem at a concrete state. -/
theorem applyFont_known_state_update_witness :
    (applyFont stOv (some "Inter")).st.settings.activeFont = some "Inter" ∧
    (applyFont stOv (some "Inter")).saves = 1 :=
  ⟨((applyFont_known_state_update stOv "Inter" (by decide) (by decide)).1 (by decide)).1,
   ((applyFont_known_state_update stOv "Inter" (by decide) (by decide)).1 (by decide)).2.1⟩

theorem removeFont_settings_eq (st : St) (fontName : String) :
    (removeFont st fontName).st.settings =
      { fonts := { google := st.settings.fonts.google.filter (fun f => f.name != fontName)
                 , «local» := st.settings.fonts.«local».filter (fun f => f.name != fontName) }
      , activeFont := if st.settings.activeFont == some fontName then none
                      else st.settings.activeFont
      , autoLoad := st.settings.autoLoad
      , overrideThemeFont := st.settings.overrideThemeFont
      , notifications := st.settings.notifications } := by
  by_cases h1 : (st.settings.fonts.«local».filter (fun f => f.name != fontName)).length <
      st.settings.fonts.«local».length <;>
    cases h2 : st.settings.activeFont == some fontName <;>
      simp [removeFont, injectLocalFontStyles, h1, h2]

/-- C6: removing the name that is currently active clears `activeFont`,
removes the `--custom-font-family` property and removes the override
style element; removing any other name leaves `activeFont` and both of
those document artifacts untouched. -/
theorem removeFont_active_clears (st : St) (name : String) :
    (st.settings.activeFont = some name →
       (removeFont st name).st.settings.activeFont = none ∧
       (removeFont st name).st.doc.customFontFamily = none ∧
       (removeFont st name).st.doc.overrideStyle = none) ∧
    (st.settings.activeFont ≠ some name →
       (removeFont st name).st.settings.activeFont = st.settings.activeFont ∧
       (removeFont st name).st.doc.customFontFamily = st.doc.customFontFamily ∧
       (removeFont st name).st.doc.overrideStyle = st.doc.overrideStyle) := by
  constructor
  · intro ha
    have hb : (st.settings.activeFont == some name) = true := by simp [ha]
    by_cases h1 : (st.settings.fonts.«local».filter (fun f => f.name != name)).length <
        st.settings.fonts.«local».length <;>
      simp [removeFont, injectLocalFontStyles, h1, hb]
  · intro ha
    have hb : (st.settings.activeFont == some name) = false := by simp [ha]
    by_cases h1 : (st.settings.fonts.«local».filter (fun f => f.name != name)).length <
        st.settings.fonts.«local».length <;>
      simp [removeFont, injectLocalFontStyles, h1, hb]

/-- Witness for C6 at a concrete state where the removed font is active. -/
theorem removeFont_active_clears_witness :
    (removeFont stW "Inter").st.settings.activeFont = none ∧
    (removeFont stW "Inter").st.doc.customFontFamily = none ∧
    (removeFont stW "Inter").st.doc.overrideStyle = none :=
  (removeFont_active_clears stW "Inter").1 (by decide)

/-- C5 counterexample: removing a name registered nowhere emits the usual
success toast (`Removed font: ...`) and no error notification at all, so
no `ValidationError` is surfaced through the notification service. -/
theorem removeFont_unknown_success_cx :
    fontPresentB stEmpty.settings "Ghost" = false ∧
    stEmpty.settings.notifications = true ∧
    (removeFont stEmpty "Ghost").notifs =
      [{ message := "Removed font: Ghost", kind := NotifKind.success }] ∧
    (removeFont stEmpty "Ghost").st.settings = stEmpty.settings := by decide

/-- C5 (amended): `removeFont` on a name absent from both sequences is a
no-op on the font sequences that still persists and emits the success
notification; no error is surfaced (every notification it emits is a
success one). -/
theorem removeFont_unknown_notifies_success (st : St) (name : String)
    (hp : fontPresentB st.settings name = false) :
    (removeFont st name).st.settings.fonts = st.settings.fonts ∧
    (removeFont st name).notifs =
      notifyList st.settings ("Removed font: " ++ name) NotifKind.success ∧
    (removeFont st name).saves = 1 := by
  have hgl := hp
  unfold fontPresentB at hgl
  rcases Bool.or_eq_false_iff.mp hgl with ⟨hg, hl⟩
  have hfg := filter_ne_of_any_eq_false GoogleFont.name st.settings.fonts.google name hg
  have hfl := filter_ne_of_any_eq_false LocalFont.name st.settings.fonts.«local» name hl
  refine ⟨?_, rfl, rfl⟩
  rw [removeFont_settings_eq]
  simp [hfg, hfl]

/-- Witness for C5's amended theorem at a concrete state. -/
theorem removeFont_unknown_notifies_success_witness :
    (removeFont stEmpty "Ghost").st.settings.fonts = stEmpty.settings.fonts ∧
    (removeFont stEmpty "Ghost").saves = 1 :=
  ⟨(removeFont_unknown_notifies_success stEmpty "Ghost" (by decide)).1,
   (removeFont_unknown_notifies_success stEmpty "Ghost" (by decide)).2.2⟩

/-- C3: adding a remote font or a local font under a (trimmed) name that
some registered font of either kind already uses leaves the entire state
unchanged, persists nothing, and every notification it emits is an error
one (and with notifications enabled at least one is emitted). -/
theorem add_duplicate_rejected (st : St) (nameInput linkInput : String)
    (file : FileReadResult)
    (hp : fontPresentB st.settings (trimString nameInput) = true) :
    ((addGoogleFont st nameInput linkInput).st = st ∧
     (addGoogleFont st nameInput linkInput).saves = 0 ∧
     (∀ ν ∈ (addGoogleFont st nameInput linkInput).notifs, ν.kind = NotifKind.error) ∧
     (st.settings.notifications = true → (addGoogleFont st nameInput linkInput).notifs ≠ [])) ∧
    ((handleLocalFontFile st (some file) nameInput).st = st ∧
     (handleLocalFontFile st (some file) nameInput).saves = 0 ∧
     (∀ ν ∈ (handleLocalFontFile st (some file) nameInput).notifs, ν.kind = NotifKind.error) ∧
     (st.settings.notifications = true →
       (handleLocalFontFile st (some file) nameInput).notifs ≠ [])) := by
  have hgl := hp
  unfold fontPresentB at hgl
  constructor
  · by_cases h0 : (trimString nameInput == "" || trimString linkInput == "") = true
    · have hred : addGoogleFont st nameInput linkInput =
          { st := st
          , notifs := notifyList st.settings
              "Both name and link are required for Google Fonts." NotifKind.error
          , saves := 0 } := by
        simp [addGoogleFont, h0]
      rw [hred]
      exact ⟨rfl, rfl, notifyList_kind _ _ _, fun h => notifyList_ne_nil _ _ _ h⟩
    · have h0f : (trimString nameInput == "" || trimString linkInput == "") = false := by
        simpa using h0
      have hred : addGoogleFont st nameInput linkInput =
          { st := st
          , notifs := notifyList st.settings
              ("A font named \"" ++ trimString nameInput ++ "\" already exists.") NotifKind.error
          , saves := 0 } := by
        simp [addGoogleFont, h0f, hgl]
      rw [hred]
      exact ⟨rfl, rfl, notifyList_kind _ _ _, fun h => notifyList_ne_nil _ _ _ h⟩
  · by_cases h0 : (trimString nameInput == "") = true
    · have hred : handleLocalFontFile st (some file) nameInput =
          { st := st
          , notifs := notifyList st.settings
              "Please provide a name for the local font first." NotifKind.error
          , saves := 0 } := by
        simp [handleLocalFontFile, h0]
      rw [hred]
      exact ⟨rfl, rfl, notifyList_kind _ _ _, fun h => notifyList_ne_nil _ _ _ h⟩
    · have h0f : (trimString nameInput == "") = false := by simpa using h0
      have hred : handleLocalFontFile st (some file) nameInput =
          { st := st
          , notifs := notifyList st.settings
              ("A font named \"" ++ trimString nameInput ++ "\" already exists.") NotifKind.error
          , saves := 0 } := by
        simp [handleLocalFontFile, h0f, hgl]
      rw [hred]
      exact ⟨rfl, rfl, notifyList_kind _ _ _, fun h => notifyList_ne_nil _ _ _ h⟩

/-- Witness for C3 at a concrete state with a clashing name. -/
theorem add_duplicate_rejected_witness :
    (addGoogleFont stW "  Foo " "https://fonts.googleapis.com/css?x").st = stW ∧
    (addGoogleFont stW "  Foo " "https://fonts.googleapis.com/css?x").saves = 0 ∧
    (handleLocalFontFile stW (some (FileReadResult.success "data:z")) "Inter").st = stW ∧
    (handleLocalFontFile stW (some (FileReadResult.success "data:z")) "Inter").saves = 0 := by
  have h1 := add_duplicate_rejected stW "  Foo " "https://fonts.googleapis.com/css?x"
    (FileReadResult.success "data:z") (by decide)
  have h2 := add_duplicate_rejected stW "Inter" "https://fonts.googleapis.com/css?x"
    (FileReadResult.success "data:z") (by decide)
  exact ⟨h1.1.1, h1.1.2.1, h2.2.1, h2.2.2.1⟩

/-- C7: the startup merge of the persisted configuration over the
defaults reproduces every persisted field (fonts sequences, `activeFont`
and the three boolean flags) wherever it is present and falls back to
the default value for every missing field or missing `fonts` sub-field;
in particular a saved configuration merges back to itself. -/
theorem startup_merge_round_trip (s : Settings) (p : PersistedSettings) :
    mergeSettings (persistOf s) = s ∧
    (p.fonts = none → (mergeSettings p).fonts = defaultSettings.fonts) ∧
    (∀ pf, p.fonts = some pf →
      (pf.google = none → (mergeSettings p).fonts.google = []) ∧
      (∀ g, pf.google = some g → (mergeSettings p).fonts.google = g) ∧
      (pf.«local» = none → (mergeSettings p).fonts.«local» = []) ∧
      (∀ l, pf.«local» = some l → (mergeSettings p).fonts.«local» = l)) ∧
    (p.activeFont = none → (mergeSettings p).activeFont = none) ∧
    (∀ a, p.activeFont = some a → (mergeSettings p).activeFont = a) ∧
    (p.autoLoad = none → (mergeSettings p).autoLoad = true) ∧
    (∀ b, p.autoLoad = some b → (mergeSettings p).autoLoad = b) ∧
    (p.overrideThemeFont = none → (mergeSettings p).overrideThemeFont = false) ∧
    (∀ b, p.overrideThemeFont = some b → (mergeSettings p).overrideThemeFont = b) ∧
    (p.notifications = none → (mergeSettings p).notifications = true) ∧
    (∀ b, p.notifications = some b → (mergeSettings p).notifications = b) := by
  refine ⟨rfl, ?_, ?_, ?_, ?_, ?_, ?_, ?_, ?_, ?_, ?_⟩
  · intro h; simp [mergeSettings, h, defaultSettings]
  · intro pf h
    refine ⟨?_, ?_, ?_, ?_⟩ <;> intro h2 <;> try intro h3
    all_goals simp_all [mergeSettings, defaultSettings]
  · intro h; simp [mergeSettings, h, defaultSettings]
  · intro a h; simp [mergeSettings, h]
  · intro h; simp [mergeSettings, h, defaultSettings]
  · intro b h; simp [mergeSettings, h]
  · intro h; simp [mergeSettings, h, defaultSettings]
  · intro b h; simp [mergeSettings, h]
  · intro h; simp [mergeSettings, h, defaultSettings]
  · intro b h; simp [mergeSettings, h]

/-- Witness for C7 at a concrete configuration and a partial persisted
value. -/
theorem startup_merge_round_trip_witness :
    mergeSettings (persistOf stW.settings) = stW.settings ∧
    (mergeSettings { fonts := none, activeFont := none, autoLoad := none
                   , overrideThemeFont := none, notifications := none }).fonts
      = defaultSettings.fonts :=
  ⟨(startup_merge_round_trip stW.settings (persistOf stW.settings)).1,
   (startup_merge_round_trip stW.settings
      { fonts := none, activeFont := none, autoLoad := none
      , overrideThemeFont := none, notifications := none }).2.1 rfl⟩

theorem invariant_append_google (s : Settings) (h : invariant s) (e : GoogleFont)
    (hg : (s.fonts.google.any fun f => f.name == e.name) = false)
    (hl : (s.fonts.«local».any fun f => f.name == e.name) = false) :
    invariant { s with fonts := { s.fonts with google := s.fonts.google ++ [e] } } := by
  constructor
  · have hmem : e.name ∉ s.fonts.google.map GoogleFont.name ++
        s.fonts.«local».map LocalFont.name := by
      rw [List.mem_append]
      push_neg
      exact ⟨any_name_eq_false_not_mem _ _ _ hg, any_name_eq_false_not_mem _ _ _ hl⟩
    have hcons : (e.name :: (s.fonts.google.map GoogleFont.name ++
        s.fonts.«local».map LocalFont.name)).Nodup :=
      List.nodup_cons.mpr ⟨hmem, h.1⟩
    have hshape : fontNames { s with fonts := { s.fonts with google := s.fonts.google ++ [e] } } =
        s.fonts.google.map GoogleFont.name ++
          e.name :: s.fonts.«local».map LocalFont.name := by
      simp [fontNames]
    rw [hshape]
    exact List.perm_middle.symm.nodup hcons
  · rcases ha : s.activeFont with _ | m
    · simp [activeFontOkB]
    · have h2 : fontPresentB s m = true := by
        have h' := h.2
        simp only [activeFontOkB, ha] at h'
        exact h'
      unfold fontPresentB at h2
      rcases Bool.or_eq_true_iff.mp h2 with hg' | hl'
      · simp [activeFontOkB, fontPresentB, List.any_append, hg']
      · simp [activeFontOkB, fontPresentB, hl']

theorem invariant_append_local (s : Settings) (h : invariant s) (e : LocalFont)
    (hg : (s.fonts.google.any fun f => f.name == e.name) = false)
    (hl : (s.fonts.«local».any fun f => f.name == e.name) = false) :
    invariant { s with fonts := { s.fonts with «local» := s.fonts.«local» ++ [e] } } := by
  constructor
  · have hmem : e.name ∉ s.fonts.google.map GoogleFont.name ++
        s.fonts.«local».map LocalFont.name := by
      rw [List.mem_append]
      push_neg
      exact ⟨any_name_eq_false_not_mem _ _ _ hg, any_name_eq_false_not_mem _ _ _ hl⟩
    have hshape : fontNames { s with fonts := { s.fonts with «local» := s.fonts.«local» ++ [e] } } =
        (s.fonts.google.map GoogleFont.name ++ s.fonts.«local».map LocalFont.name) ++
          [e.name] := by
      simp [fontNames]
    rw [hshape]
    rw [List.nodup_append]
    exact ⟨h.1, List.nodup_singleton _, by simpa [List.disjoint_singleton] using hmem⟩
  · rcases ha : s.activeFont with _ | m
    · simp [activeFontOkB]
    · have h2 : fontPresentB s m = true := by
        have h' := h.2
        simp only [activeFontOkB, ha] at h'
        exact h'
      unfold fontPresentB at h2
      rcases Bool.or_eq_true_iff.mp h2 with hg' | hl'
      · simp [activeFontOkB, fontPresentB, hg']
      · simp [activeFontOkB, fontPresentB, List.any_append, hl']

theorem invariant_remove (s : Settings) (h : invariant s) (n : String) :
    invariant { fonts := { google := s.fonts.google.filter (fun f => f.name != n)
                         , «local» := s.fonts.«local».filter (fun f => f.name != n) }
              , activeFont := if s.activeFont == some n then none else s.activeFont
              , autoLoad := s.autoLoad
              , overrideThemeFont := s.overrideThemeFont
              , notifications := s.notifications } := by
  constructor
  · have hsub : List.Sublist
        ((s.fonts.google.filter (fun f => f.name != n)).map GoogleFont.name ++
          (s.fonts.«local».filter (fun f => f.name != n)).map LocalFont.name)
        (s.fonts.google.map GoogleFont.name ++ s.fonts.«local».map LocalFont.name) :=
      List.Sublist.append ((List.filter_sublist _).map _) ((List.filter_sublist _).map _)
    exact h.1.sublist hsub
  · by_cases hb : (s.activeFont == some n) = true
    · simp [activeFontOkB, hb]
    · have hbf : (s.activeFont == some n) = false := by simpa using hb
      rcases ha : s.activeFont with _ | m
      · simp [activeFontOkB]
      · have hmn : m ≠ n := by
          rw [ha] at hbf
          simpa using hbf
        have h2 : fontPresentB s m = true := by
          have h' := h.2
          simp only [activeFontOkB, ha] at h'
          exact h'
        have hbeq : ((some m == some n) : Bool) = false := by simp [hmn]
        unfold fontPresentB at h2
        rcases Bool.or_eq_true_iff.mp h2 with hg' | hl'
        · have hfil := any_name_filter_ne GoogleFont.name s.fonts.google m n hmn hg'
          simp [activeFontOkB, fontPresentB, hbeq, hfil]
        · have hfil := any_name_filter_ne LocalFont.name s.fonts.«local» m n hmn hl'
          simp [activeFontOkB, fontPresentB, hbeq, hfil]

theorem invariant_set_active (s : Settings) (h : invariant s) (n : String)
    (hp : fontPresentB s n = true) :
    invariant { s with activeFont := some n } := by
  exact ⟨h.1, hp⟩

/-- C2: each of the four operations preserves the joint invariant that no
font name occurs twice across (or within) the two sequences and that
`activeFont`, when non-null, names a registered font. -/
theorem operations_preserve_invariant (st : St) (h : invariant st.settings) :
    (∀ nameInput linkInput, invariant ((addGoogleFont st nameInput linkInput).st.settings)) ∧
    (∀ file nameInput, invariant ((handleLocalFontFile st file nameInput).st.settings)) ∧
    (∀ fontName, invariant ((removeFont st fontName).st.settings)) ∧
    (∀ fontName, invariant ((applyFont st fontName).st.settings)) := by
  refine ⟨?_, ?_, ?_, ?_⟩
  · intro nameInput linkInput
    by_cases h0 : (trimString nameInput == "" || trimString linkInput == "") = true
    · simpa [addGoogleFont, h0] using h
    · have h0f : (trimString nameInput == "" || trimString linkInput == "") = false := by
        simpa using h0
      by_cases h1 : (st.settings.fonts.google.any (fun f => f.name == trimString nameInput) ||
          st.settings.fonts.«local».any (fun f => f.name == trimString nameInput)) = true
      · simpa [addGoogleFont, h0f, h1] using h
      · have h1f : (st.settings.fonts.google.any (fun f => f.name == trimString nameInput) ||
            st.settings.fonts.«local».any (fun f => f.name == trimString nameInput)) = false := by
          simpa using h1
        by_cases h2 : ((trimString linkInput).startsWith "https://fonts.googleapis.com/css") = true
        · have hred : (addGoogleFont st nameInput linkInput).st.settings =
              { st.settings with fonts := { st.settings.fonts with
                  google := st.settings.fonts.google ++
                    [{ name := trimString nameInput, link := trimString linkInput }] } } := by
            simp [addGoogleFont, h0f, h1f, h2]
          rw [hred]
          rcases Bool.or_eq_false_iff.mp h1f with ⟨hg, hl⟩
          exact invariant_append_google st.settings h _ hg hl
        · have h2f : ((trimString linkInput).startsWith "https://fonts.googleapis.com/css")
              = false := by simpa using h2
          simpa [addGoogleFont, h0f, h1f, h2f] using h
  · intro file nameInput
    cases file with
    | none => simpa [handleLocalFontFile] using h
    | some result =>
      by_cases h0 : (trimString nameInput == "") = true
      · simpa [handleLocalFontFile, h0] using h
      · have h0f : (trimString nameInput == "") = false := by simpa using h0
        by_cases h1 : (st.settings.fonts.google.any (fun f => f.name == trimString nameInput) ||
            st.settings.fonts.«local».any (fun f => f.name == trimString nameInput)) = true
        · simpa [handleLocalFontFile, h0f, h1] using h
        · have h1f : (st.settings.fonts.google.any (fun f => f.name == trimString nameInput) ||
              st.settings.fonts.«local».any (fun f => f.name == trimString nameInput)) = false := by
            simpa using h1
          cases result with
          | failure => simpa [handleLocalFontFile, h0f, h1f] using h
          | success data =>
            have hred : (handleLocalFontFile st (some (FileReadResult.success data))
                nameInput).st.settings =
                { st.settings with fonts := { st.settings.fonts with
                    «local» := st.settings.fonts.«local» ++
                      [{ name := trimString nameInput, data := data }] } } := by
              simp [handleLocalFontFile, injectLocalFontStyles, h0f, h1f]
            rw [hred]
            rcases Bool.or_eq_false_iff.mp h1f with ⟨hg, hl⟩
            exact invariant_append_local st.settings h _ hg hl
  · intro fontName
    rw [removeFont_settings_eq]
    exact invariant_remove st.settings h fontName
  · intro fontName
    cases fontName with
    | none => exact h
    | some n =>
      by_cases hn : (n == "") = true
      · simpa [applyFont, hn] using h
      · have hnf : (n == "") = false := by simpa using hn
        by_cases hk : (!(st.settings.fonts.google.any fun f => f.name == n) &&
            !(st.settings.fonts.«local».any fun f => f.name == n)) = true
        · simpa [applyFont, applyFontNamed, hnf, hk] using h
        · have hkf : (!(st.settings.fonts.google.any fun f => f.name == n) &&
              !(st.settings.fonts.«local».any fun f => f.name == n)) = false := by
            simpa using hk
          have hp : fontPresentB st.settings n = true := by
            unfold fontPresentB
            cases hab : ((st.settings.fonts.google.any fun f => f.name == n) ||
                (st.settings.fonts.«local».any fun f => f.name == n)) with
            | true => rfl
            | false =>
              rw [← Bool.not_or, hab] at hkf
              simp at hkf
          cases hov : st.settings.overrideThemeFont with
          | false =>
            have hred : (applyFont st (some n)).st.settings = st.settings := by
              simp [applyFont, applyFontNamed, hnf, hkf, hov]
            rw [hred]
            exact h
          | true =>
            have hred : (applyFont st (some n)).st.settings =
                { st.settings with activeFont := some n } := by
              simp [applyFont, applyFontNamed, hnf, hkf, hov]
            rw [hred]
            exact invariant_set_active st.settings h n hp

/-- Witness for C2 at a concrete invariant-satisfying state. -/
theorem operations_preserve_invariant_witness :
    invariant ((removeFont stW "Inter").st.settings) ∧
    invariant ((addGoogleFont stW "Roboto" "https://fonts.googleapis.com/css2?x").st.settings) :=
  ⟨(operations_preserve_invariant stW (by decide)).2.2.1 "Inter",
   (operations_preserve_invariant stW (by decide)).1 "Roboto" "https://fonts.googleapis.com/css2?x"⟩

/-- Number of `<link>` elements with the given id in the document head. -/
def countLinks (d : Doc) (i : String) : Nat :=
  (d.headLinks.filter fun l => l.id == i).length

theorem countLinks_eq_zero_iff (d : Doc) (i : String) :
    countLinks d i = 0 ↔ (d.headLinks.any fun l => l.id == i) = false := by
  unfold countLinks
  rw [List.length_eq_zero, List.filter_eq_nil_iff, List.any_eq_false]

theorem find_name_of_any (l : List GoogleFont) (name : String)
    (h : (l.any fun f => f.name == name) = true) :
    ∃ font, l.find? (fun f => f.name == name) = some font ∧ font.name = name := by
  have hs : (l.find? fun f => f.name == name).isSome := by
    rw [List.find?_isSome]
    rcases List.any_eq_true.mp h with ⟨f, hf, he⟩
    exact ⟨f, hf, he⟩
  rcases Option.isSome_iff_exists.mp hs with ⟨font, hfind⟩
  exact ⟨font, hfind, by simpa using List.find?_some hfind⟩

theorem applyFont_fonts_eq (st : St) (fontName : Option String) :
    (applyFont st fontName).st.settings.fonts = st.settings.fonts := by
  cases fontName with
  | none => rfl
  | some n =>
    by_cases hn : (n == "") = true
    · simp [applyFont, hn]
    · have hnf : (n == "") = false := by simpa using hn
      by_cases hk : (!(st.settings.fonts.google.any fun f => f.name == n) &&
          !(st.settings.fonts.«local».any fun f => f.name == n)) = true
      · simp [applyFont, applyFontNamed, hnf, hk]
      · have hkf : (!(st.settings.fonts.google.any fun f => f.name == n) &&
            !(st.settings.fonts.«local».any fun f => f.name == n)) = false := by
          simpa using hk
        cases hov : st.settings.overrideThemeFont with
        | false => simp [applyFont, applyFontNamed, hnf, hkf, hov]
        | true => simp [applyFont, applyFontNamed, hnf, hkf, hov]

theorem applyFont_headLinks_known (st : St) (name : String) (font : GoogleFont)
    (hnf : (name == "") = false)
    (hg : (st.settings.fonts.google.any fun f => f.name == name) = true)
    (hfind : st.settings.fonts.google.find? (fun f => f.name == name) = some font) :
    (applyFont st (some name)).st.doc.headLinks =
      (if (st.doc.headLinks.any fun l => l.id == linkId font.name) = true
       then st.doc.headLinks
       else st.doc.headLinks ++
         [{ id := linkId font.name, rel := "stylesheet", href := font.link }]) := by
  have hkf : (!(st.settings.fonts.google.any fun f => f.name == name) &&
      !(st.settings.fonts.«local».any fun f => f.name == name)) = false := by
    simp [hg]
  cases hov : st.settings.overrideThemeFont <;>
    cases hany : (st.doc.headLinks.any fun l => l.id == linkId font.name) <;>
      simp [applyFont, applyFontNamed, hnf, hkf, hg, hfind, hov, hany]

/-- C8: applying a known remote font inserts the stylesheet link with the
deterministic id `linkId name` only when no element with that id is
present: starting from a document without it, one apply leaves exactly
one such link and a second apply still leaves exactly one; when such an
element is already present, the head is left unchanged. -/
theorem applyFont_link_idempotent (st : St) (name : String) (hn : name ≠ "")
    (hg : (st.settings.fonts.google.any fun f => f.name == name) = true) :
    (countLinks st.doc (linkId name) = 0 →
       countLinks (applyFont st (some name)).st.doc (linkId name) = 1 ∧
       countLinks (applyFont (applyFont st (some name)).st (some name)).st.doc
         (linkId name) = 1) ∧
    (countLinks st.doc (linkId name) ≠ 0 →
       (applyFont st (some name)).st.doc.headLinks = st.doc.headLinks) := by
  have hnf : (name == "") = false := by simp [hn]
  obtain ⟨font, hfind, hfname⟩ := find_name_of_any _ _ hg
  constructor
  · intro h0
    have hany0 : (st.doc.headLinks.any fun l => l.id == linkId name) = false :=
      (countLinks_eq_zero_iff _ _).mp h0
    have hL1 : (applyFont st (some name)).st.doc.headLinks =
        st.doc.headLinks ++ [{ id := linkId name, rel := "stylesheet", href := font.link }] := by
      rw [applyFont_headLinks_known st name font hnf hg hfind, hfname]
      simp [hany0]
    have hc1 : countLinks (applyFont st (some name)).st.doc (linkId name) = 1 := by
      unfold countLinks at h0 ⊢
      rw [hL1, List.filter_append, List.length_append, h0]
      simp
    refine ⟨hc1, ?_⟩
    have hfonts := applyFont_fonts_eq st (some name)
    have hg1 : ((applyFont st (some name)).st.settings.fonts.google.any
        fun f => f.name == name) = true := by rw [hfonts]; exact hg
    have hfind1 : (applyFont st (some name)).st.settings.fonts.google.find?
        (fun f => f.name == name) = some font := by rw [hfonts]; exact hfind
    have hany1 : ((applyFont st (some name)).st.doc.headLinks.any
        fun l => l.id == linkId name) = true := by
      rw [hL1]
      simp
    have hL2 : (applyFont (applyFont st (some name)).st (some name)).st.doc.headLinks =
        (applyFont st (some name)).st.doc.headLinks := by
      rw [applyFont_headLinks_known (applyFont st (some name)).st name font hnf hg1 hfind1,
        hfname]
      simp [hany1]
    unfold countLinks
    rw [hL2]
    exact hc1
  · intro h0
    have hany : (st.doc.headLinks.any fun l => l.id == linkId name) = true := by
      cases hany : (st.doc.headLinks.any fun l => l.id == linkId name) with
      | true => rfl
      | false => exact absurd ((countLinks_eq_zero_iff _ _).mpr hany) h0
    rw [applyFont_headLinks_known st name font hnf hg hfind, hfname]
    simp [hany]

/-- Witness for C8 at a concrete state whose head has no link yet. -/
theorem applyFont_link_idempotent_witness :
    countLinks (applyFont stW (some "Inter")).st.doc (linkId "Inter") = 1 ∧
    countLinks (applyFont (applyFont stW (some "Inter")).st (some "Inter")).st.doc
      (linkId "Inter") = 1 :=
  (applyFont_link_idempotent stW "Inter" (by decide) (by decide)).1 (by decide)

theorem length_filter_ne_lt (l : List LocalFont) (n : String)
    (h : (l.any fun f => f.name == n) = true) :
    (l.filter fun f => f.name != n).length < l.length := by
  rcases List.any_eq_true.mp h with ⟨f0, hf0, he⟩
  have he' : f0.name = n := by simpa using he
  rcases Nat.lt_or_ge (l.filter fun f => f.name != n).length l.length with hlt | hge
  · exact hlt
  · exfalso
    have hle := List.length_filter_le (fun f => f.name != n) l
    have heq : (l.filter fun f => f.name != n).length = l.length := Nat.le_antisymm hle hge
    have hself : (l.filter fun f => f.name != n) = l :=
      (List.filter_sublist l).eq_of_length heq
    have hall := List.filter_eq_self.mp hself f0 hf0
    rw [he'] at hall
    simp at hall

/-- C9: the local font-face definitions style element is rebuilt as
exactly one `@font-face` rule per entry of the local sequence (joined
with newlines), rebuilding is idempotent, and after removing a
registered local font the element's content is again exactly the rules
of the remaining entries, none of which carries the deleted name. -/
theorem injectLocalFontStyles_rebuild (st : St) (name : String) :
    (injectLocalFontStyles st).doc.localDefsStyle =
      some (String.intercalate "\n" (st.settings.fonts.«local».map fontFaceRule)) ∧
    injectLocalFontStyles (injectLocalFontStyles st) = injectLocalFontStyles st ∧
    ((st.settings.fonts.«local».any fun f => f.name == name) = true →
      (removeFont st name).st.doc.localDefsStyle =
        some (String.intercalate "\n"
          ((removeFont st name).st.settings.fonts.«local».map fontFaceRule)) ∧
      ∀ f ∈ (removeFont st name).st.settings.fonts.«local», f.name ≠ name) := by
  refine ⟨rfl, rfl, ?_⟩
  intro hl
  have hlen := length_filter_ne_lt st.settings.fonts.«local» name hl
  have hloc : (removeFont st name).st.settings.fonts.«local» =
      st.settings.fonts.«local».filter (fun f => f.name != name) := by
    rw [removeFont_settings_eq]
  constructor
  · rw [hloc]
    by_cases hb : (st.settings.activeFont == some name) = true
    · simp [removeFont, injectLocalFontStyles, localDefsContent, hlen, hb]
    · have hbf : (st.settings.activeFont == some name) = false := by simpa using hb
      simp [removeFont, injectLocalFontStyles, localDefsContent, hlen, hbf]
  · intro f hf
    rw [hloc] at hf
    have hpred := (List.mem_filter.mp hf).2
    simpa using hpred

/-- Witness for C9 at a concrete state with a local font. -/
theorem injectLocalFontStyles_rebuild_witness :
    (removeFont stW "Foo").st.doc.localDefsStyle =
      some (String.intercalate "\n"
        ((removeFont stW "Foo").st.settings.fonts.«local».map fontFaceRule)) :=
  ((injectLocalFontStyles_rebuild stW "Foo").2.2 (by decide)).1

end CustomFonts
